import Mathlib

/-!
Verification development for the `mcp-cmd-exec` server
(`src/mcp-cmd-exec/src/index.ts`).

The server keeps a global `Map` from process id to a record
`{ process, output, error, running, startTime, workingDir, command }`,
validates working directories against a list of allowed root directories,
splits the submitted command string on spaces, spawns the process, and
lets callers poll the accumulated output, optionally evicting completed
records.

Paths and strings are modelled as `List Char` (`Str`), so that the
character-level behaviour of JavaScript's `String.prototype.startsWith`
and `String.prototype.split` is represented exactly.
-/

/-- A character string, modelled as its list of characters. -/
abbrev Str := List Char

/-- A filesystem path, as its character sequence. -/
abbrev FsPath := Str

/-- Split a character list at every occurrence of `sep`; the separator
chars are dropped and the (possibly empty) segments between them are
returned in order.  This is `String.prototype.split(sep)` for a
one-character separator: it always returns at least one segment, and
consecutive separators yield empty segments. -/
def chSplit (sep : Char) : List Char → List (List Char)
  | [] => [[]]
  | c :: cs =>
    if c = sep then [] :: chSplit sep cs
    else (c :: (chSplit sep cs).headD []) :: (chSplit sep cs).tail

/-- Join segments with a single `sep` character between them; the
left inverse of `chSplit`. -/
def joinSep (sep : Char) : List (List Char) → List Char
  | [] => []
  | [s] => s
  | s :: t :: rest => s ++ sep :: joinSep sep (t :: rest)

/-- JavaScript `String.prototype.startsWith`: `strStartsWith s pre` is
true iff `pre` is a character-for-character prefix of `s`. -/
def strStartsWith : Str → Str → Bool
  | _, [] => true
  | [], _ :: _ => false
  | a :: as, b :: bs => if a = b then strStartsWith as bs else false

/-- One step of POSIX path-segment normalization, as performed by
Node's `path.normalize`/`path.resolve` on an absolute path: empty
segments and `.` are dropped, `..` removes the previously kept segment
(or is dropped at the root), everything else is kept. -/
def normStep (acc : List (List Char)) (s : List Char) : List (List Char) :=
  if s = [] ∨ s = ['.'] then acc
  else if s = ['.', '.'] then acc.dropLast
  else acc ++ [s]

/-- Normalize a list of path segments (left to right). -/
def normSegs (segs : List (List Char)) : List (List Char) :=
  segs.foldl normStep []

/-- Render normalized segments as an absolute path: `/` followed by the
segments joined with `/`; the empty segment list is the root `/`. -/
def joinAbs : List (List Char) → FsPath
  | [] => ['/']
  | s :: rest => joinSep '/' ([] :: s :: rest)

/-- A POSIX path is absolute iff it starts with `/`. -/
def isAbsolute (p : FsPath) : Bool :=
  match p with
  | '/' :: _ => true
  | _ => false

/-- Normalize an absolute path: split on `/`, resolve `.`/`..`/empty
segments, and re-render. -/
def normAbs (p : FsPath) : FsPath := joinAbs (normSegs (chSplit '/' p))

/-- Node's `path.normalize(path.resolve(p))` with current working
directory `cwd` (an absolute path, as `process.cwd()` always is): a
relative `p` is interpreted against `cwd`, and the result is an
absolute path with `.`, `..`, duplicate and trailing slashes resolved. -/
def resolve (cwd : FsPath) (p : FsPath) : FsPath :=
  normAbs (if isAbsolute p then p else cwd ++ '/' :: p)

/-- True iff the path starts with a `~` character. -/
def startsWithTilde (p : FsPath) : Bool :=
  match p with
  | '~' :: _ => true
  | _ => false

/-- Startup normalization of one configured allowed directory
(index.ts lines 36-42): a leading `~` is replaced by
`path.join(os.homedir(), dir.slice(1))`, then the result is passed
through `path.resolve` and `path.normalize`. -/
def normalizeRoot (cwd homedir : FsPath) (dir : FsPath) : FsPath :=
  resolve cwd (if startsWithTilde dir then homedir ++ '/' :: dir.drop 1 else dir)

/-- The security check `isPathAllowed` (index.ts lines 53-56): the
requested path is resolved and normalized, and allowed iff some
configured directory is a character-level prefix of it
(`normalizedPath.startsWith(dir)`). -/
def isPathAllowed (cwd : FsPath) (allowedDirectories : List FsPath) (requestedPath : FsPath) : Bool :=
  let normalizedPath := resolve cwd requestedPath
  allowedDirectories.any (fun dir => strStartsWith normalizedPath dir)

/-- The allowlist check as the specification states it, for comparison
with `isPathAllowed`: the normalized candidate is allowed iff it equals
some allowed root or is a descendant of one (the root followed by a
path separator is a prefix of it). -/
def specIsAllowed (cwd : FsPath) (allowedDirectories : List FsPath) (requestedPath : FsPath) : Bool :=
  let np := resolve cwd requestedPath
  allowedDirectories.any (fun dir => decide (np = dir) || strStartsWith np (dir ++ ['/']))

example : resolve "/".data "/foo-bar".data = "/foo-bar".data := by decide
example : isPathAllowed "/".data ["/foo".data] "/foo-bar".data = true := by decide
example : specIsAllowed "/".data ["/foo".data] "/foo-bar".data = false := by decide
example : isPathAllowed "/".data ["/foo".data] "/foo".data = true := by decide
example : resolve "/a/b".data "../c/./d//".data = "/a/c/d".data := by decide
example : normalizeRoot "/tmp".data "/home/u".data "~".data = "/home/u".data := by decide
example : normalizeRoot "/tmp".data "/home/u".data "~/x".data = "/home/u/x".data := by decide
example : isPathAllowed "/tmp".data ["/home/u".data] "~".data = false := by decide

/-! Splitting and joining lemmas. -/

theorem chSplit_cons_sep (sep : Char) (cs : List Char) :
    chSplit sep (sep :: cs) = [] :: chSplit sep cs := by
  simp [chSplit]

theorem chSplit_cons_ne (sep c : Char) (cs : List Char) (h : c ≠ sep) :
    chSplit sep (c :: cs) =
      (c :: (chSplit sep cs).headD []) :: (chSplit sep cs).tail := by
  simp [chSplit, h]

theorem chSplit_ne_nil (sep : Char) (l : List Char) : chSplit sep l ≠ [] := by
  cases l with
  | nil => simp [chSplit]
  | cons c cs => by_cases h : c = sep <;> simp [chSplit, h]

theorem noSep_chSplit (sep : Char) :
    ∀ (l : List Char) (s : List Char), s ∈ chSplit sep l → sep ∉ s := by
  intro l
  induction l with
  | nil =>
    intro s hs
    simp [chSplit] at hs
    subst hs
    exact List.not_mem_nil sep
  | cons c cs ih =>
    intro s hs
    by_cases h : c = sep
    · rw [h, chSplit_cons_sep] at hs
      rcases List.mem_cons.mp hs with rfl | hmem
      · exact List.not_mem_nil sep
      · exact ih s hmem
    · rw [chSplit_cons_ne sep c cs h] at hs
      rcases h2 : chSplit sep cs with _ | ⟨h0, t⟩
      · exact absurd h2 (chSplit_ne_nil sep cs)
      · rw [h2] at hs
        simp only [List.headD_cons, List.tail_cons] at hs
        rcases List.mem_cons.mp hs with rfl | hmem
        · intro hin
          rcases List.mem_cons.mp hin with heq | hin2
          · exact h heq.symm
          · exact ih h0 (by rw [h2]; exact List.mem_cons_self h0 t) hin2
        · exact ih s (by rw [h2]; exact List.mem_cons_of_mem h0 hmem)

theorem joinSep_chSplit (sep : Char) :
    ∀ (l : List Char), joinSep sep (chSplit sep l) = l := by
  intro l
  induction l with
  | nil => simp [chSplit, joinSep]
  | cons c cs ih =>
    by_cases h : c = sep
    · rw [h, chSplit_cons_sep]
      rcases h2 : chSplit sep cs with _ | ⟨h0, t⟩
      · exact absurd h2 (chSplit_ne_nil sep cs)
      · rw [h2] at ih
        simp only [joinSep, List.nil_append]
        rw [ih]
    · rw [chSplit_cons_ne sep c cs h]
      rcases h2 : chSplit sep cs with _ | ⟨h0, t⟩
      · exact absurd h2 (chSplit_ne_nil sep cs)
      · rw [h2] at ih
        simp only [List.headD_cons, List.tail_cons]
        cases t with
        | nil =>
          simp only [joinSep] at ih ⊢
          rw [ih]
        | cons u v =>
          simp only [joinSep, List.cons_append] at ih ⊢
          rw [ih]

theorem chSplit_of_noSep (sep : Char) :
    ∀ (s : List Char), sep ∉ s → chSplit sep s = [s] := by
  intro s
  induction s with
  | nil => intro _; rfl
  | cons c cs ih =>
    intro h
    have hc : c ≠ sep := by
      intro e
      exact h (e ▸ List.mem_cons_self c cs)
    have hcs : sep ∉ cs := fun m => h (List.mem_cons_of_mem c m)
    rw [chSplit_cons_ne sep c cs hc, ih hcs]
    simp

theorem chSplit_append (sep : Char) :
    ∀ (s l : List Char), sep ∉ s →
      chSplit sep (s ++ sep :: l) = s :: chSplit sep l := by
  intro s
  induction s with
  | nil => intro l _; simpa using chSplit_cons_sep sep l
  | cons c cs ih =>
    intro l h
    have hc : c ≠ sep := by
      intro e
      exact h (e ▸ List.mem_cons_self c cs)
    have hcs : sep ∉ cs := fun m => h (List.mem_cons_of_mem c m)
    rw [List.cons_append, chSplit_cons_ne sep c _ hc, ih l hcs]
    simp

theorem chSplit_joinSep (sep : Char) :
    ∀ (M : List (List Char)), M ≠ [] → (∀ s ∈ M, sep ∉ s) →
      chSplit sep (joinSep sep M) = M := by
  intro M
  induction M with
  | nil => intro h _; exact absurd rfl h
  | cons s rest ih =>
    intro _ hall
    cases rest with
    | nil =>
      simpa [joinSep] using chSplit_of_noSep sep s (hall s (List.mem_cons_self s []))
    | cons t v =>
      have hs : sep ∉ s := hall s (List.mem_cons_self _ _)
      have hrest : ∀ x ∈ t :: v, sep ∉ x := fun x hx => hall x (List.mem_cons_of_mem s hx)
      have hj : joinSep sep (s :: t :: v) = s ++ sep :: joinSep sep (t :: v) := rfl
      rw [hj, chSplit_append sep s _ hs, ih (by simp) hrest]

/-! Normalization lemmas: `normSegs` produces clean segments and is the
identity on clean segments, so `resolve` is idempotent. -/

/-- A clean path segment: non-empty, not a dot segment, and free of the
separator character. -/
def goodSeg (sep : Char) (s : List Char) : Prop :=
  s ≠ [] ∧ s ≠ ['.'] ∧ s ≠ ['.', '.'] ∧ sep ∉ s

theorem mem_of_mem_dropLast {α : Type} :
    ∀ {l : List α} {x : α}, x ∈ l.dropLast → x ∈ l := by
  intro l
  induction l with
  | nil => intro x h; simp at h
  | cons a t iht =>
    intro x h
    cases t with
    | nil => simp [List.dropLast] at h
    | cons b u =>
      rw [List.dropLast_cons₂] at h
      rcases List.mem_cons.mp h with rfl | h2
      · exact List.mem_cons_self _ _
      · exact List.mem_cons_of_mem a (iht h2)

theorem normStep_good (sep : Char) (acc : List (List Char)) (s : List Char)
    (hacc : ∀ x ∈ acc, goodSeg sep x) (hs : sep ∉ s) :
    ∀ x ∈ normStep acc s, goodSeg sep x := by
  intro x hx
  unfold normStep at hx
  by_cases h1 : s = [] ∨ s = ['.']
  · rw [if_pos h1] at hx
    exact hacc x hx
  · rw [if_neg h1] at hx
    by_cases h2 : s = ['.', '.']
    · rw [if_pos h2] at hx
      exact hacc x (mem_of_mem_dropLast hx)
    · rw [if_neg h2] at hx
      rcases List.mem_append.mp hx with h3 | h3
      · exact hacc x h3
      · have hxs : x = s := by simpa using h3
        subst hxs
        exact ⟨fun e => h1 (Or.inl e), fun e => h1 (Or.inr e), h2, hs⟩

theorem foldl_normStep_good (sep : Char) :
    ∀ (segs acc : List (List Char)),
      (∀ x ∈ acc, goodSeg sep x) → (∀ s ∈ segs, sep ∉ s) →
      ∀ x ∈ segs.foldl normStep acc, goodSeg sep x := by
  intro segs
  induction segs with
  | nil => intro acc hacc _ x hx; exact hacc x hx
  | cons s rest ih =>
    intro acc hacc hsegs x hx
    rw [List.foldl_cons] at hx
    exact ih (normStep acc s)
      (normStep_good sep acc s hacc (hsegs s (List.mem_cons_self _ _)))
      (fun t ht => hsegs t (List.mem_cons_of_mem s ht)) x hx

theorem normSegs_good (sep : Char) (segs : List (List Char))
    (hsegs : ∀ s ∈ segs, sep ∉ s) :
    ∀ x ∈ normSegs segs, goodSeg sep x :=
  foldl_normStep_good sep segs [] (by intro x hx; simp at hx) hsegs

theorem foldl_normStep_id (sep : Char) :
    ∀ (segs acc : List (List Char)),
      (∀ s ∈ segs, goodSeg sep s) → segs.foldl normStep acc = acc ++ segs := by
  intro segs
  induction segs with
  | nil => intro acc _; simp
  | cons s rest ih =>
    intro acc hall
    rw [List.foldl_cons]
    have hg := hall s (List.mem_cons_self _ _)
    have h1 : ¬(s = [] ∨ s = ['.']) := by
      rintro (e | e)
      exacts [hg.1 e, hg.2.1 e]
    have hstep : normStep acc s = acc ++ [s] := by
      unfold normStep
      rw [if_neg h1, if_neg hg.2.2.1]
    rw [hstep, ih (acc ++ [s]) (fun t ht => hall t (List.mem_cons_of_mem s ht))]
    simp

theorem normSegs_of_good (sep : Char) (segs : List (List Char))
    (hall : ∀ s ∈ segs, goodSeg sep s) : normSegs segs = segs := by
  unfold normSegs
  rw [foldl_normStep_id sep segs [] hall]
  simp

theorem normSegs_nil_cons (L : List (List Char)) :
    normSegs ([] :: L) = normSegs L := by
  unfold normSegs
  rw [List.foldl_cons]
  congr 1

theorem isAbsolute_joinAbs (L : List (List Char)) :
    isAbsolute (joinAbs L) = true := by
  cases L with
  | nil => rfl
  | cons s rest => rfl

theorem normAbs_joinAbs (L : List (List Char)) (hall : ∀ s ∈ L, goodSeg '/' s) :
    normAbs (joinAbs L) = joinAbs L := by
  cases L with
  | nil => decide
  | cons s rest =>
    have hnosep : ∀ x ∈ ([] : List Char) :: s :: rest, '/' ∉ x := by
      intro x hx
      rcases List.mem_cons.mp hx with rfl | h2
      · exact List.not_mem_nil _
      · exact (hall x h2).2.2.2
    have hj : joinAbs (s :: rest) = joinSep '/' ([] :: s :: rest) := rfl
    unfold normAbs
    rw [hj, chSplit_joinSep '/' ([] :: s :: rest) (by simp) hnosep,
      normSegs_nil_cons, normSegs_of_good '/' (s :: rest) hall]
    exact hj

theorem resolve_resolve (cwd p : FsPath) :
    resolve cwd (resolve cwd p) = resolve cwd p := by
  unfold resolve
  set q := if isAbsolute p then p else cwd ++ '/' :: p with hq
  have hgood : ∀ s ∈ normSegs (chSplit '/' q), goodSeg '/' s :=
    normSegs_good '/' _ (noSep_chSplit '/' q)
  have habs : isAbsolute (normAbs q) = true := isAbsolute_joinAbs _
  rw [if_pos habs]
  exact normAbs_joinAbs _ hgood

/-! Prefix lemmas for the allowlist comparison. -/

theorem strStartsWith_refl : ∀ s : Str, strStartsWith s s = true := by
  intro s
  induction s with
  | nil => rfl
  | cons a as ih => simp [strStartsWith, ih]

theorem strStartsWith_of_append :
    ∀ (s a b : Str), strStartsWith s (a ++ b) = true → strStartsWith s a = true := by
  intro s a
  induction a generalizing s with
  | nil =>
    intro b _
    cases s <;> rfl
  | cons c cs ih =>
    intro b h
    cases s with
    | nil => simp [strStartsWith] at h
    | cons x xs =>
      rw [List.cons_append] at h
      by_cases hxc : x = c
      · simp only [strStartsWith, if_pos hxc] at h ⊢
        exact ih xs b h
      · simp only [strStartsWith, if_neg hxc] at h
        exact absurd h Bool.false_ne_true

/-- C1: the claim asserts `isPathAllowed` accepts exactly the allowed
roots and their descendants.  On the code this fails: the check is a raw
character-level `startsWith` against each normalized root, so a sibling
path such as `/foo-bar` under the root `/foo` is also accepted.  The
amended statement: `isPathAllowed p` is true iff some configured root is
a character-level prefix of the normalized `p`; every root and every
descendant of a root is accepted (so the spec's allowed set is
contained in the code's), but so are further string-prefix siblings. -/
theorem isPathAllowed_iff_string_prefixed (cwd : FsPath) (roots : List FsPath) (p : FsPath) :
    (specIsAllowed cwd roots p = true → isPathAllowed cwd roots p = true) ∧
    (isPathAllowed cwd roots p = true ↔
      ∃ r ∈ roots, strStartsWith (resolve cwd p) r = true) := by
  constructor
  · intro h
    unfold specIsAllowed at h
    unfold isPathAllowed
    rw [List.any_eq_true] at h ⊢
    obtain ⟨r, hr, hcond⟩ := h
    refine ⟨r, hr, ?_⟩
    rcases Bool.or_eq_true_iff.mp hcond with heq | hdesc
    · have : resolve cwd p = r := of_decide_eq_true heq
      rw [this]
      exact strStartsWith_refl r
    · exact strStartsWith_of_append (resolve cwd p) r ['/'] hdesc
  · unfold isPathAllowed
    rw [List.any_eq_true]

/-- Witness for the C1 theorem: a genuine descendant of an allowed root
is accepted by the code's check. -/
theorem isPathAllowed_iff_string_prefixed_witness :
    isPathAllowed "/".data ["/foo".data] "/foo/sub".data = true :=
  (isPathAllowed_iff_string_prefixed "/".data ["/foo".data] "/foo/sub".data).1 (by decide)

/-- Counterexample to C1 as stated: with allowed root `/foo`, the
sibling path `/foo-bar` is accepted by the code although it is neither
`/foo` nor a descendant of `/foo`. -/
theorem sibling_path_allowed_cex :
    isPathAllowed "/".data ["/foo".data] "/foo-bar".data = true ∧
    specIsAllowed "/".data ["/foo".data] "/foo-bar".data = false := by
  constructor <;> decide

/-- C2 (amended): `isPathAllowed` normalizes its input with
`path.normalize(path.resolve(p))` only — resolving relative segments
against the current working directory and making the path absolute —
and this normalization is idempotent, so
`isPathAllowed (resolve p) = isPathAllowed p`.  (The claim's further
assertion that `isPathAllowed` also resolves a leading `~`, as the
startup root normalization does, is refuted by
`tilde_not_resolved_cex`.) -/
theorem isPathAllowed_resolve (cwd : FsPath) (roots : List FsPath) (p : FsPath) :
    isPathAllowed cwd roots (resolve cwd p) = isPathAllowed cwd roots p := by
  unfold isPathAllowed
  rw [resolve_resolve]

/-- Counterexample to C2 as stated: with home directory `/home/u` and
current directory `/tmp`, the configured root `~` is normalized to
`/home/u` at startup, yet `isPathAllowed "~"` is false — the candidate
`~` is resolved to `/tmp/~`, not to the home directory, so
`isPathAllowed` does not apply the same normalization as the startup
root parsing. -/
theorem tilde_not_resolved_cex :
    isPathAllowed "/tmp".data [normalizeRoot "/tmp".data "/home/u".data "~".data] "~".data
      = false ∧
    isPathAllowed "/tmp".data [normalizeRoot "/tmp".data "/home/u".data "~".data]
      (normalizeRoot "/tmp".data "/home/u".data "~".data) = true := by
  constructor <;> decide

/-! The process registry and its operations (index.ts lines 17-28 and
101-352).  The OS child-process handle held in each record is not data;
it is modelled by the list of side-effecting actions an operation
requests from the OS. -/

/-- One entry of the `runningProcesses` map (index.ts lines 18-26),
without the opaque `process` handle. -/
structure RunningProcess where
  output : Str
  error : Str
  running : Bool
  startTime : Nat
  workingDir : Str
  command : Str
deriving DecidableEq

/-- The `runningProcesses` map, as an association list from process id
to record (ids are unique: they are freshly generated UUIDs). -/
abbrev Registry := List (Str × RunningProcess)

/-- JavaScript `Map.prototype.get` (None for a missing key). -/
def Registry.get : Registry → Str → Option RunningProcess
  | [], _ => none
  | e :: rest, id => if e.1 = id then some e.2 else Registry.get rest id

/-- JavaScript `Map.prototype.set`: replace the entry for the key if
present, otherwise append a new entry. -/
def Registry.set : Registry → Str → RunningProcess → Registry
  | [], id, p => [(id, p)]
  | e :: rest, id, p =>
    if e.1 = id then (id, p) :: rest else e :: Registry.set rest id p

/-- JavaScript `Map.prototype.delete` (ignoring the returned Boolean). -/
def Registry.delete : Registry → Str → Registry
  | [], _ => []
  | e :: rest, id =>
    if e.1 = id then Registry.delete rest id else e :: Registry.delete rest id

/-- Side effects an operation requests from the operating system. -/
inductive OsAction where
  | spawn (cmd : Str) (args : List Str) (cwd : Str)
  | armTimer (ms : Nat)
  | kill
  | clearTimer
deriving DecidableEq

/-- Failure of `executeCommand` before anything is launched
(index.ts lines 111-117): the working directory is outside every
allowed root.  The thrown message carries the resolved directory and
the allowed list. -/
inductive ExecError where
  | directoryNotAllowed (dir : Str) (allowed : List Str)
deriving DecidableEq

/-- The command split of index.ts lines 119-122:
`const parts = command.split(" ")`, executable `parts[0]`, arguments
`parts.slice(1)`.  The split is on single space characters only. -/
def splitCommand (command : Str) : Str × List Str :=
  ((chSplit ' ' command).headD [], (chSplit ' ' command).tail)

/-- The synchronous effect of `executeCommand` (index.ts lines
102-197): default the working directory to the current directory when
the caller passes none (the empty string is falsy in JavaScript),
reject it via `isPathAllowed` before touching the OS, otherwise insert
a fresh record with `running = true` and empty buffers, spawn the
process and arm the timeout timer, and return the fresh id. -/
def executeCommand (cwd : FsPath) (allowedDirectories : List FsPath) (r : Registry)
    (command workingDir : Str) (timeout : Nat) (freshId : Str) (now : Nat) :
    Registry × List OsAction × Except ExecError Str :=
  let effectiveWorkingDir := if workingDir = [] then cwd else workingDir
  if isPathAllowed cwd allowedDirectories effectiveWorkingDir then
    (Registry.set r freshId
      { output := [], error := [], running := true, startTime := now,
        workingDir := effectiveWorkingDir, command := command },
      [OsAction.spawn (splitCommand command).1 (splitCommand command).2 effectiveWorkingDir,
        OsAction.armTimer (timeout * 1000)],
      Except.ok freshId)
  else
    (r, [], Except.error (ExecError.directoryNotAllowed effectiveWorkingDir allowedDirectories))

/-- The note appended to a record's `error` buffer by the timeout
callback (index.ts line 151). -/
def timeoutNote : Str := "\nProcess terminated due to timeout.".data

/-- Asynchronous notifications delivered to the callbacks registered by
`executeCommand` for one launched process. -/
inductive PEvent where
  | stdoutData (chunk : Str)
  | stderrData (chunk : Str)
  | timeoutFire
  | close (code : Int)
deriving DecidableEq

/-- One callback invocation (index.ts lines 144-190): stdout/stderr
`data` listeners append to the buffers while the record exists; the
timeout callback kills the process, clears `running` and appends the
termination note, but only if the record exists and is still running;
the `close` listener cancels the timer and clears `running`. -/
def applyEvent (r : Registry) (processId : Str) (ev : PEvent) : Registry × List OsAction :=
  match ev with
  | .stdoutData d =>
    match Registry.get r processId with
    | some proc => (Registry.set r processId { proc with output := proc.output ++ d }, [])
    | none => (r, [])
  | .stderrData d =>
    match Registry.get r processId with
    | some proc => (Registry.set r processId { proc with error := proc.error ++ d }, [])
    | none => (r, [])
  | .timeoutFire =>
    match Registry.get r processId with
    | some proc =>
      if proc.running then
        (Registry.set r processId
          { proc with running := false, error := proc.error ++ timeoutNote },
          [OsAction.kill])
      else (r, [])
    | none => (r, [])
  | .close _ =>
    match Registry.get r processId with
    | some proc =>
      (Registry.set r processId { proc with running := false }, [OsAction.clearTimer])
    | none => (r, [OsAction.clearTimer])

/-- Apply a sequence of callback notifications for one process. -/
def runTrace (r : Registry) (processId : Str) : List PEvent → Registry
  | [] => r
  | ev :: evs => runTrace (applyEvent r processId ev).1 processId evs

/-- The `running` flag of a record, false when the record is absent. -/
def getRunning (r : Registry) (processId : Str) : Bool :=
  match Registry.get r processId with
  | some proc => proc.running
  | none => false

/-- Number of events in a trace that flip the record's `running` flag
from true to false. -/
def transitions (r : Registry) (processId : Str) : List PEvent → Nat
  | [] => 0
  | ev :: evs =>
    (if getRunning r processId && !getRunning (applyEvent r processId ev).1 processId
      then 1 else 0) +
      transitions (applyEvent r processId ev).1 processId evs

/-- Result of the `read_output` handler, as structured data: either the
not-found error reply or the snapshot rendered into the response text
(index.ts lines 287-317). -/
inductive ReadResult where
  | notFound (processId : Str)
  | snapshot (command workingDir : Str) (running : Bool) (runtime : Nat)
      (output error : Str)
deriving DecidableEq

/-- The `read_output` handler (index.ts lines 281-327): look the id up
(the not-found case replies with an error result and touches nothing);
compute the runtime as `Math.round((Date.now() - startTime) / 1000)`;
build the response from the record; then, only if `clear` was requested
and the process is not running, delete the record — after the response
was built. -/
def readOutput (r : Registry) (processId : Str) (clear : Bool) (now : Nat) :
    ReadResult × Registry :=
  match Registry.get r processId with
  | none => (ReadResult.notFound processId, r)
  | some proc =>
    let snap := ReadResult.snapshot proc.command proc.workingDir proc.running
      ((now - proc.startTime + 500) / 1000) proc.output proc.error
    if clear && !proc.running then (snap, Registry.delete r processId)
    else (snap, r)

/-! Registry lemmas. -/

theorem Registry.get_set_self (r : Registry) (id : Str) (p : RunningProcess) :
    Registry.get (Registry.set r id p) id = some p := by
  induction r with
  | nil => simp [Registry.set, Registry.get]
  | cons e rest ih =>
    by_cases h : e.1 = id
    · simp [Registry.set, Registry.get, h]
    · simp [Registry.set, Registry.get, h, ih]

theorem Registry.get_delete_self (r : Registry) (id : Str) :
    Registry.get (Registry.delete r id) id = none := by
  induction r with
  | nil => simp [Registry.delete, Registry.get]
  | cons e rest ih =>
    by_cases h : e.1 = id
    · simp [Registry.delete, h, ih]
    · simp [Registry.delete, Registry.get, h, ih]

/-! Single-transition lemmas for the `running` flag. -/

theorem getRunning_mono (r : Registry) (id : Str) (ev : PEvent)
    (h : getRunning r id = false) :
    getRunning (applyEvent r id ev).1 id = false := by
  unfold getRunning at h ⊢
  cases ev with
  | stdoutData d =>
    cases hget : Registry.get r id with
    | none => simp [applyEvent, hget]
    | some proc =>
      rw [hget] at h
      simp only [] at h
      simp [applyEvent, hget, Registry.get_set_self, h]
  | stderrData d =>
    cases hget : Registry.get r id with
    | none => simp [applyEvent, hget]
    | some proc =>
      rw [hget] at h
      simp only [] at h
      simp [applyEvent, hget, Registry.get_set_self, h]
  | timeoutFire =>
    cases hget : Registry.get r id with
    | none => simp [applyEvent, hget]
    | some proc =>
      rw [hget] at h
      simp only [] at h
      simp [applyEvent, hget, h]
  | close c =>
    cases hget : Registry.get r id with
    | none => simp [applyEvent, hget]
    | some proc => simp [applyEvent, hget, Registry.get_set_self]

theorem present_applyEvent (r : Registry) (id : Str) (ev : PEvent)
    (h : (Registry.get r id).isSome = true) :
    (Registry.get (applyEvent r id ev).1 id).isSome = true := by
  cases ev with
  | stdoutData d =>
    cases hget : Registry.get r id with
    | none => rw [hget] at h; simp at h
    | some proc => simp [applyEvent, hget, Registry.get_set_self]
  | stderrData d =>
    cases hget : Registry.get r id with
    | none => rw [hget] at h; simp at h
    | some proc => simp [applyEvent, hget, Registry.get_set_self]
  | timeoutFire =>
    cases hget : Registry.get r id with
    | none => rw [hget] at h; simp at h
    | some proc =>
      by_cases hrun : proc.running
      · simp [applyEvent, hget, hrun, Registry.get_set_self]
      · simp [applyEvent, hget, hrun]
  | close c =>
    cases hget : Registry.get r id with
    | none => rw [hget] at h; simp at h
    | some proc => simp [applyEvent, hget, Registry.get_set_self]

theorem present_runTrace (r : Registry) (id : Str) :
    ∀ evs, (Registry.get r id).isSome = true →
      (Registry.get (runTrace r id evs) id).isSome = true := by
  intro evs
  induction evs generalizing r with
  | nil => intro h; exact h
  | cons ev rest ih => intro h; exact ih _ (present_applyEvent r id ev h)

theorem transitions_eq_zero (r : Registry) (id : Str) :
    ∀ evs, getRunning r id = false → transitions r id evs = 0 := by
  intro evs
  induction evs generalizing r with
  | nil => intro _; rfl
  | cons ev rest ih =>
    intro h
    unfold transitions
    rw [h, ih _ (getRunning_mono r id ev h)]
    simp

theorem transitions_le_one (r : Registry) (id : Str) :
    ∀ evs, transitions r id evs ≤ 1 := by
  intro evs
  induction evs generalizing r with
  | nil => simp [transitions]
  | cons ev rest ih =>
    unfold transitions
    by_cases hc : (getRunning r id && !getRunning (applyEvent r id ev).1 id) = true
    · rw [if_pos hc]
      have hb : getRunning (applyEvent r id ev).1 id = false := by
        simp only [Bool.and_eq_true, Bool.not_eq_true'] at hc
        exact hc.2
      rw [transitions_eq_zero _ id rest hb]
    · rw [if_neg hc]
      simpa using ih (applyEvent r id ev).1

theorem getRunning_runTrace_false (r : Registry) (id : Str) :
    ∀ evs, getRunning r id = false → getRunning (runTrace r id evs) id = false := by
  intro evs
  induction evs generalizing r with
  | nil => intro h; exact h
  | cons ev rest ih => intro h; exact ih _ (getRunning_mono r id ev h)

theorem transitions_ge_one (r : Registry) (id : Str) :
    ∀ evs, getRunning r id = true → getRunning (runTrace r id evs) id = false →
      1 ≤ transitions r id evs := by
  intro evs
  induction evs generalizing r with
  | nil =>
    intro h1 h2
    rw [runTrace, h1] at h2
    exact absurd h2 (by simp)
  | cons ev rest ih =>
    intro h1 h2
    unfold transitions
    cases hb : getRunning (applyEvent r id ev).1 id with
    | false =>
      rw [h1]
      have hcond : ((true && !false) = true) := rfl
      rw [if_pos hcond]
      omega
    | true =>
      rw [h1]
      have hcond : ¬((true && !true) = true) := by simp
      rw [if_neg hcond]
      have h2' : getRunning (runTrace (applyEvent r id ev).1 id rest) id = false := by
        simpa [runTrace] using h2
      have hge := ih _ hb h2'
      omega

theorem close_clears_running (r : Registry) (id : Str) (c : Int)
    (h : (Registry.get r id).isSome = true) :
    getRunning (applyEvent r id (PEvent.close c)).1 id = false := by
  cases hget : Registry.get r id with
  | none => rw [hget] at h; simp at h
  | some proc => simp [applyEvent, hget, getRunning, Registry.get_set_self]

theorem runTrace_append (r : Registry) (id : Str) :
    ∀ (a b : List PEvent), runTrace r id (a ++ b) = runTrace (runTrace r id a) id b := by
  intro a
  induction a generalizing r with
  | nil => intro b; rfl
  | cons ev rest ih => intro b; exact ih _ b

/-! Claim theorems for the executor, the callbacks and the reader. -/

/-- Helper: a non-empty list is its default head followed by its tail. -/
theorem headD_cons_tail {α : Type} (l : List α) (hne : l ≠ []) (d : α) :
    l.headD d :: l.tail = l := by
  cases l with
  | nil => exact absurd rfl hne
  | cons a t => rfl

/-- C4 (amended): `executeCommand` splits the submitted command on
single space characters only — the first token is the executable, the
rest are the arguments, no token contains a space, and joining the
tokens back with single spaces restores the command verbatim (so there
are no shell semantics: no quoting, no operators).  The claim's further
assertion that runs of whitespace collapse and introduce no empty
arguments is refuted by `splitCommand_empty_arg_cex`: consecutive
spaces produce empty argument tokens and tabs do not separate at all. -/
theorem splitCommand_single_space (command : Str) :
    joinSep ' ' ((splitCommand command).1 :: (splitCommand command).2) = command ∧
    ∀ t ∈ (splitCommand command).1 :: (splitCommand command).2, ' ' ∉ t := by
  have hne := chSplit_ne_nil ' ' command
  have hid : (splitCommand command).1 :: (splitCommand command).2 = chSplit ' ' command := by
    unfold splitCommand
    exact headD_cons_tail _ hne []
  rw [hid]
  exact ⟨joinSep_chSplit ' ' command, fun t ht => noSep_chSplit ' ' command t ht⟩

/-- Witness for the C4 theorem at the command `a b`. -/
theorem splitCommand_single_space_witness :
    joinSep ' ' ((splitCommand "a b".data).1 :: (splitCommand "a b".data).2) = "a b".data ∧
    ' ' ∉ (splitCommand "a b".data).1 :=
  ⟨(splitCommand_single_space "a b".data).1,
    (splitCommand_single_space "a b".data).2 _ (List.mem_cons_self _ _)⟩

/-- Counterexample to C4 as stated: the command `a  b` (two spaces)
yields the empty string as an argument token, and a tab does not
separate tokens at all (the whole of `a\tb` stays one token). -/
theorem splitCommand_empty_arg_cex :
    splitCommand "a  b".data = ("a".data, [[], "b".data]) ∧
    [] ∈ (splitCommand "a  b".data).2 ∧
    splitCommand "a\tb".data = ("a\tb".data, []) := by
  refine ⟨by decide, by decide, by decide⟩

/-- C5: when the effective working directory (the caller's, or the
current directory when omitted — the empty string is falsy) is not
allowed, `executeCommand` fails with the directory-not-allowed error
carrying the resolved directory and the allowed list, requests no OS
action (nothing is spawned, no timer armed), and returns the registry
unchanged — no record is inserted. -/
theorem start_disallowed_no_effect (cwd : FsPath) (roots : List FsPath) (r : Registry)
    (command workingDir freshId : Str) (timeout now : Nat)
    (h : isPathAllowed cwd roots (if workingDir = [] then cwd else workingDir) = false) :
    executeCommand cwd roots r command workingDir timeout freshId now =
      (r, [], Except.error (ExecError.directoryNotAllowed
        (if workingDir = [] then cwd else workingDir) roots)) := by
  unfold executeCommand
  rw [if_neg]
  rw [h]
  exact Bool.false_ne_true

/-- Witness for the C5 theorem: cwd `/a`, allowed root `/b`, requested
working directory `/c`. -/
theorem start_disallowed_no_effect_witness :
    executeCommand "/a".data ["/b".data] [] "x".data "/c".data 60 "id1".data 0 =
      ([], [], Except.error (ExecError.directoryNotAllowed
        (if "/c".data = ([] : Str) then "/a".data else "/c".data) ["/b".data])) :=
  start_disallowed_no_effect "/a".data ["/b".data] [] "x".data "/c".data "id1".data 60 0
    (by decide)

/-- C8: for a record that exists with `running = true`, over every
sequence of callback notifications at most one event flips `running`
from true to false; a trace ending with the process-exit notification
(`close`) flips it exactly once — so the timeout-kill path and the
exit path never both transition it; and once `running` is false no
event (timeout, exit, or output append) ever sets it back to true. -/
theorem running_transition_exactly_once (r : Registry) (id : Str) (c : Int)
    (hmem : (Registry.get r id).isSome = true) (hrun : getRunning r id = true) :
    (∀ evs, transitions r id evs ≤ 1) ∧
    (∀ evs, transitions r id (evs ++ [PEvent.close c]) = 1) ∧
    (∀ evs ev, getRunning (runTrace r id evs) id = false →
      getRunning (applyEvent (runTrace r id evs) id ev).1 id = false) := by
  refine ⟨fun evs => transitions_le_one r id evs, fun evs => ?_,
    fun evs ev h => getRunning_mono _ id ev h⟩
  have hfinal : getRunning (runTrace r id (evs ++ [PEvent.close c])) id = false := by
    rw [runTrace_append]
    have hpres := present_runTrace r id evs hmem
    have hclose := close_clears_running (runTrace r id evs) id c hpres
    simpa [runTrace] using hclose
  have hge := transitions_ge_one r id (evs ++ [PEvent.close c]) hrun hfinal
  have hle := transitions_le_one r id (evs ++ [PEvent.close c])
  omega

/-- Witness for the C8 theorem: one stdout chunk then `close` on a
fresh running record makes exactly one transition. -/
theorem running_transition_exactly_once_witness :
    transitions [("p1".data, ⟨[], [], true, 0, "/".data, "sleep 10".data⟩)] "p1".data
      [PEvent.stdoutData "x".data, PEvent.close 0] = 1 :=
  (running_transition_exactly_once _ "p1".data 0 (by decide) (by decide)).2.1
    [PEvent.stdoutData "x".data]

/-- C9: when the timeout callback runs while the record still has
`running = true`, it kills the OS process, sets `running = false` and
appends the termination note to the record's `error` buffer; and the
callback is not re-triggerable — applied again to the resulting state
it does nothing (the one-shot timer is also cancelled by `close`). -/
theorem timeout_fire_kills (r : Registry) (id : Str) (p : RunningProcess)
    (h : Registry.get r id = some p) (hrun : p.running = true) :
    applyEvent r id PEvent.timeoutFire =
      (Registry.set r id { p with running := false, error := p.error ++ timeoutNote },
        [OsAction.kill]) ∧
    applyEvent (Registry.set r id { p with running := false, error := p.error ++ timeoutNote })
        id PEvent.timeoutFire =
      (Registry.set r id { p with running := false, error := p.error ++ timeoutNote },
        []) := by
  constructor
  · simp [applyEvent, h, hrun]
  · simp [applyEvent, Registry.get_set_self]

/-- Witness for the C9 theorem on a concrete running record. -/
theorem timeout_fire_kills_witness :
    applyEvent [("p2".data, ⟨[], [], true, 0, "/".data, "sleep 99".data⟩)] "p2".data
        PEvent.timeoutFire =
      (Registry.set [("p2".data, ⟨[], [], true, 0, "/".data, "sleep 99".data⟩)] "p2".data
        ⟨[], timeoutNote, false, 0, "/".data, "sleep 99".data⟩,
        [OsAction.kill]) :=
  (timeout_fire_kills [("p2".data, ⟨[], [], true, 0, "/".data, "sleep 99".data⟩)]
    "p2".data ⟨[], [], true, 0, "/".data, "sleep 99".data⟩ (by decide) (by decide)).1

/-- C6: reading a completed record with `clear = true` returns the
snapshot taken from the record before eviction (read-then-evict) and
deletes the record; any subsequent read of the same id fails with the
not-found result and leaves the registry as it is — the final state is
delivered exactly once. -/
theorem read_clear_completed (r : Registry) (id : Str) (p : RunningProcess)
    (now now2 : Nat) (clear2 : Bool)
    (h : Registry.get r id = some p) (hrun : p.running = false) :
    readOutput r id true now =
      (ReadResult.snapshot p.command p.workingDir false ((now - p.startTime + 500) / 1000)
        p.output p.error, Registry.delete r id) ∧
    readOutput (Registry.delete r id) id clear2 now2 =
      (ReadResult.notFound id, Registry.delete r id) := by
  constructor
  · simp [readOutput, h, hrun]
  · simp [readOutput, Registry.get_delete_self]

/-- Witness for the C6 theorem on a concrete completed record. -/
theorem read_clear_completed_witness :
    readOutput [("p3".data, ⟨"hi".data, [], false, 0, "/".data, "echo hi".data⟩)]
        "p3".data true 1000 =
      (ReadResult.snapshot "echo hi".data "/".data false ((1000 - 0 + 500) / 1000)
        "hi".data [],
        Registry.delete [("p3".data, ⟨"hi".data, [], false, 0, "/".data, "echo hi".data⟩)]
          "p3".data) ∧
    readOutput
        (Registry.delete [("p3".data, ⟨"hi".data, [], false, 0, "/".data, "echo hi".data⟩)]
          "p3".data) "p3".data false 2000 =
      (ReadResult.notFound "p3".data,
        Registry.delete [("p3".data, ⟨"hi".data, [], false, 0, "/".data, "echo hi".data⟩)]
          "p3".data) :=
  read_clear_completed [("p3".data, ⟨"hi".data, [], false, 0, "/".data, "echo hi".data⟩)]
    "p3".data ⟨"hi".data, [], false, 0, "/".data, "echo hi".data⟩ 1000 2000 false
    (by decide) (by decide)

/-- C7: reading a still-running record with `clear = true` returns the
current snapshot and leaves the registry unchanged — the clear request
is ignored, not an error — and a subsequent read of the same id still
succeeds with a snapshot. -/
theorem read_clear_running_noop (r : Registry) (id : Str) (p : RunningProcess)
    (now now2 : Nat)
    (h : Registry.get r id = some p) (hrun : p.running = true) :
    readOutput r id true now =
      (ReadResult.snapshot p.command p.workingDir true ((now - p.startTime + 500) / 1000)
        p.output p.error, r) ∧
    (readOutput r id false now2).1 =
      ReadResult.snapshot p.command p.workingDir true ((now2 - p.startTime + 500) / 1000)
        p.output p.error := by
  constructor
  · simp [readOutput, h, hrun]
  · simp [readOutput, h, hrun]

/-- Witness for the C7 theorem on a concrete running record. -/
theorem read_clear_running_noop_witness :
    readOutput [("p4".data, ⟨[], [], true, 0, "/".data, "sleep 5".data⟩)]
        "p4".data true 500 =
      (ReadResult.snapshot "sleep 5".data "/".data true ((500 - 0 + 500) / 1000) [] [],
        [("p4".data, ⟨[], [], true, 0, "/".data, "sleep 5".data⟩)]) ∧
    (readOutput [("p4".data, ⟨[], [], true, 0, "/".data, "sleep 5".data⟩)]
        "p4".data false 1500).1 =
      ReadResult.snapshot "sleep 5".data "/".data true ((1500 - 0 + 500) / 1000) [] [] :=
  read_clear_running_noop [("p4".data, ⟨[], [], true, 0, "/".data, "sleep 5".data⟩)]
    "p4".data ⟨[], [], true, 0, "/".data, "sleep 5".data⟩ 500 1500 (by decide) (by decide)

/-- C10: a read with `clear = false` returns the registry unchanged —
no record inserted, removed or mutated — and a read of an id that is
not in the registry returns the not-found result and also leaves the
registry unchanged. -/
theorem read_no_clear_frame (r : Registry) (id : Str) (now : Nat) :
    (Registry.get r id = none →
      ∀ clear, readOutput r id clear now = (ReadResult.notFound id, r)) ∧
    (readOutput r id false now).2 = r := by
  constructor
  · intro h clear
    simp [readOutput, h]
  · unfold readOutput
    cases hget : Registry.get r id with
    | none => rfl
    | some proc => simp

/-- Witness for the C10 theorem: reading an unknown id (even with
`clear = true`) returns not-found and the empty registry unchanged. -/
theorem read_no_clear_frame_witness :
    readOutput [] "nope".data true 7 = (ReadResult.notFound "nope".data, []) :=
  (read_no_clear_frame [] "nope".data 7).1 rfl true

/-! Claim C3: handling of asynchronous spawn failures. -/

/-- Event kinds observable on the spawned child process and its stdio
streams. -/
inductive ChildEvent where
  | stdoutData
  | stderrData
  | close
  | spawnError
deriving DecidableEq

/-- The listeners `executeCommand` registers after `spawn` (index.ts
lines 159, 170, 181): `data` on stdout, `data` on stderr, and `close`
on the child — and nothing else; in particular no `error` listener is
ever registered on the child. -/
def handledChildEvents : List ChildEvent :=
  [ChildEvent.stdoutData, ChildEvent.stderrData, ChildEvent.close]

/-- Modelled from the Node.js `child_process`/`EventEmitter` contract,
which is not part of this repository: when the operating system cannot
create the requested process (missing executable, permission denial),
`spawn` returns normally and the failure is delivered asynchronously as
an `error` event on the child object, so the synchronous `try`/`catch`
in `executeCommand` never sees it; and an `error` event emitted on an
emitter with no registered `error` listener is re-thrown as an uncaught
exception, which is fatal to the hosting process. -/
def eventFatal (handled : List ChildEvent) (ev : ChildEvent) : Bool :=
  decide (ev = ChildEvent.spawnError) && !(handled.contains ev)

/-- C3 fails on the code: the claim says every launch failure is caught
at the operation boundary and surfaced as a structured result, with no
failure mode fatal to the hosting process.  But `executeCommand`
registers no `error` listener on the spawned child, so an asynchronous
spawn failure (missing executable, permission denial) is an unhandled
`error` event and kills the hosting process. -/
theorem spawn_failure_fatal :
    ChildEvent.spawnError ∉ handledChildEvents ∧
    eventFatal handledChildEvents ChildEvent.spawnError = true := by
  constructor <;> decide
